import Mathlib

/-!
Verification development for the jval validator combinator library.

The embedding models the evolved collect-all-and-dedup design of the library
(src/unnamed/part_000 and src/unnamed/part_003, which differ only in the
value-model plumbing), together with the description mechanism of
RecursiveValidator.MarshalJSON from src/jval.go.

Values are modelled after part_000, where a JSON document is decoded into a
Go interface value: JSON null and an absent value are both the nil interface
(see NullValidator and OptionalValidator there, which test `v == nil`).

Go run-time panics (comparing uncomparable interface values in Error.Equals,
and the `e.Context.([]Error)` type assertion in the and/or flattening loops)
are modelled by `Option`: `none` is a panic, `some r` is a normal return of r.
-/

namespace Jval

/-- The value model (external collaborator of the library): a JSON-like tree.
`null` models the Go nil interface, which in part_000 stands for both JSON
null and an absent value. Numbers are modelled as integers; no claim touches
fractional behaviour. -/
inductive JValue where
  | null
  | str (s : String)
  | num (n : Int)
  | bool (b : Bool)
  | arr (elems : List JValue)
  | obj (fields : List (String × JValue))

mutual
/-- Deep structural equality of two value trees: the value model's
deep-equality predicate (jsem `Value.Equals` used by ExactlyValidator in
src/unnamed/part_003 line 605 and src/jval.go line 462). -/
def jvalEq : JValue → JValue → Bool
  | .null, .null => true
  | .str a, .str b => a == b
  | .num a, .num b => a == b
  | .bool a, .bool b => a == b
  | .arr as, .arr bs => jvalEqArr as bs
  | .obj as, .obj bs => jvalEqObj as bs
  | _, _ => false

/-- Elementwise deep equality of two element lists. -/
def jvalEqArr : List JValue → List JValue → Bool
  | [], [] => true
  | a :: as, b :: bs => jvalEq a b && jvalEqArr as bs
  | _, _ => false

/-- Elementwise deep equality of two field lists. -/
def jvalEqObj : List (String × JValue) → List (String × JValue) → Bool
  | [], [] => true
  | (k, a) :: as, (l, b) :: bs => k == l && (jvalEq a b && jvalEqObj as bs)
  | _, _ => false
end

mutual
/-- The Error record of src/unnamed/part_000 lines 9-13: reason label, field
path (ordered segments), and a structured context. -/
inductive JError where
  | mk (label : String) (field : List String) (context : Ctx)

/-- The dynamic type of the Go `interface{}` Context values the engine
produces: nil, an offending key / case discriminator (string), a length or
key count (int), the min/max bounds map of a range validator
(`map[string]int`, uncomparable in Go), and the nested violation list of an
aggregate (`[]Error`, uncomparable in Go). -/
inductive Ctx where
  | cnone
  | cstr (s : String)
  | cint (n : Int)
  | cbounds (x y : Int)
  | cerrs (es : List JError)
end

/-- The reason label of a violation. -/
def JError.label : JError → String
  | .mk l _ _ => l

/-- The field path of a violation. -/
def JError.field : JError → List String
  | .mk _ f _ => f

/-- The context of a violation. -/
def JError.context : JError → Ctx
  | .mk _ _ c => c

/-- Go `==` on two `interface{}` context values (part_000 line 32):
`some true`/`some false` for comparable dynamic types, `none` (run-time
panic, "comparing uncomparable type") when both operands hold the same
uncomparable dynamic type (a map or a slice). Operands of different dynamic
types compare unequal without panicking. -/
def ctxEq : Ctx → Ctx → Option Bool
  | .cnone, .cnone => some true
  | .cstr a, .cstr b => some (a == b)
  | .cint a, .cint b => some (a == b)
  | .cbounds _ _, .cbounds _ _ => none
  | .cerrs _, .cerrs _ => none
  | _, _ => some false

/-- Error.Equals of src/unnamed/part_000 lines 20-33: false on differing path
length, differing label, or differing path segments; otherwise the result of
comparing the two contexts with Go `==`. -/
def errEquals (e o : JError) : Option Bool :=
  if e.field.length ≠ o.field.length then some false
  else if e.label ≠ o.label then some false
  else if e.field ≠ o.field then some false
  else ctxEq e.context o.context

/-- The inner loop of uniqueErrors: does some element of the list Equal e?
Stops at the first hit, as the Go `continue outer` does. -/
def memErr (e : JError) : List JError → Option Bool
  | [] => some false
  | q :: qs => do
      let b ← errEquals e q
      if b then some true else memErr e qs

/-- The accumulator loop of uniqueErrors (part_000 lines 645-657). -/
def uniqueLoop (uq : List JError) : List JError → Option (List JError)
  | [] => some uq
  | e :: rest => do
      let b ← memErr e uq
      if b then uniqueLoop uq rest else uniqueLoop (uq ++ [e]) rest

/-- uniqueErrors of src/unnamed/part_000 lines 645-657: keep the first
occurrence of every violation, where occurrence is judged by Error.Equals. -/
def uniqueErrors (es : List JError) : Option (List JError) :=
  uniqueLoop [] es

/-- The Go type assertion `e.Context.([]Error)`: panics (`none`) unless the
context actually holds a violation list. -/
def asErrs : Ctx → Option (List JError)
  | .cerrs es => some es
  | _ => none

/-- The collection loop body of AndValidator.Validate (part_000 lines
150-156): an error labelled "and" is spliced open one level, any other error
is kept. -/
def spliceAnd : List JError → Option (List JError)
  | [] => some []
  | e :: rest => do
      let head ← if e.label = "and" then asErrs e.context else some [e]
      let tail ← spliceAnd rest
      pure (head ++ tail)

/-- The collection loop body of OrValidator.Validate (part_000 lines
218-224): an error labelled "or" is spliced open one level, any other error
is kept. -/
def spliceOr : List JError → Option (List JError)
  | [] => some []
  | e :: rest => do
      let head ← if e.label = "or" then asErrs e.context else some [e]
      let tail ← spliceOr rest
      pure (head ++ tail)

/-- The tail of AndValidator.Validate (part_000 lines 158-165): empty
collection is success, a deduplicated singleton is returned unwrapped, more
than one deduplicated violation is wrapped in a synthetic "and" violation
with empty path and the list as context. -/
def andFinish : List JError → Option (List JError)
  | [] => some []
  | ae => do
      let ue ← uniqueErrors ae
      if ue.length = 1 then some ue else some [JError.mk "and" [] (.cerrs ue)]

/-- The tail of OrValidator.Validate (part_000 lines 226-233), identical to
the and tail but tagged "or". -/
def orFinish : List JError → Option (List JError)
  | [] => some []
  | ae => do
      let ue ← uniqueErrors ae
      if ue.length = 1 then some ue else some [JError.mk "or" [] (.cerrs ue)]

/-- The length switch of the Lambda inside LengthBetweenValidator.Validate
(part_000 lines 489-495): the length of a string or array, -1 otherwise. -/
def jlen : JValue → Int
  | .str s => (s.length : Int)
  | .arr es => (es.length : Int)
  | _ => -1

/-- The body of the length-checking Lambda inside
LengthBetweenValidator.Validate (part_000 lines 488-507): measure the length
of a string or array (-1 otherwise), and on a range miss report
value_must_have_length when min = max, else value_must_have_length_between. -/
def lbBody (x y : Int) (v : JValue) (f : List String) : List JError :=
  if jlen v < x ∨ jlen v > y then
    if x = y then [JError.mk "value_must_have_length" f (.cint x)]
    else [JError.mk "value_must_have_length_between" f (.cbounds x y)]
  else []

/-- The validator variant set used by the claims, from src/unnamed/part_000:
primitive type checks, the logical combinators, object/array structure,
optional, length-between and exactly. -/
inductive Validator where
  | anything
  | string
  | number
  | boolean
  | null
  | and (vs : List Validator)
  | or (vs : List Validator)
  | object (d : List (String × Validator))
  | array (e : Validator)
  | optional (e : Validator)
  | lengthBetween (x y : Int)
  | exactly (j : JValue)

mutual
/-- Termination measure for validate: the tree size of a validator, with
lengthBetween given weight 9 because its Validate constructs and runs the
fixed guard And(Or(String(), Array(Anything())), ...) of size 3. -/
def msize : Validator → Nat
  | .anything => 1
  | .string => 1
  | .number => 1
  | .boolean => 1
  | .null => 1
  | .exactly _ => 1
  | .lengthBetween _ _ => 9
  | .array e => 1 + msize e
  | .optional e => 1 + msize e
  | .and vs => 1 + msizeList vs
  | .or vs => 1 + msizeList vs
  | .object d => 1 + msizeObj d

/-- Sum of measures of a validator list, padded per element. -/
def msizeList : List Validator → Nat
  | [] => 0
  | v :: vs => 1 + msize v + msizeList vs

/-- Sum of measures of a schema's validators, padded per entry. -/
def msizeObj : List (String × Validator) → Nat
  | [] => 0
  | (_, v) :: d => 1 + msize v + msizeObj d
end

/-- The unexpected-key loop of ObjectValidator.Validate (part_000 lines
296-300): for every key of the value's mapping that is not in the schema,
emit unexpected_object_key at the parent path with the key as context. -/
def unexpectedKeys (o : List (String × JValue)) (d : List (String × Validator))
    (f : List String) : List JError :=
  match o with
  | [] => []
  | (k, _) :: rest =>
      (match d.lookup k with
       | none => [JError.mk "unexpected_object_key" f (.cstr k)]
       | some _ => []) ++ unexpectedKeys rest d f

mutual
/-- Validate of src/unnamed/part_000 (with ExactlyValidator taken from
part_003 line 604 / src/jval.go line 461, where it delegates to the value
model's deep equality): dispatch on the validator variant. `none` models a
Go run-time panic. -/
def validate : Validator → JValue → List String → Option (List JError)
  | .anything, _, _ => some []
  | .string, v, f =>
      match v with
      | .str _ => some []
      | _ => some [JError.mk "value_must_be_string" f .cnone]
  | .number, v, f =>
      match v with
      | .num _ => some []
      | _ => some [JError.mk "value_must_be_number" f .cnone]
  | .boolean, v, f =>
      match v with
      | .bool _ => some []
      | _ => some [JError.mk "value_must_be_boolean" f .cnone]
  | .null, v, f =>
      match v with
      | .null => some []
      | _ => some [JError.mk "value_must_be_null" f .cnone]
  | .and vs, v, f => do
      let ae ← andLoop vs v f
      andFinish ae
  | .or vs, v, f => orLoop vs v f []
  | .object d, v, f =>
      match v with
      | .obj o => do
          let rest ← objLoop d o f
          pure (unexpectedKeys o d f ++ rest)
      | _ => some [JError.mk "value_must_be_object" f .cnone]
  | .array e, v, f =>
      match v with
      | .arr es => arrLoop e es 0 f
      | _ => some [JError.mk "value_must_be_array" f .cnone]
  | .optional e, v, f =>
      match v with
      | .null => some []
      | _ => validate e v f
  | .lengthBetween x y, v, f => do
      let es1 ← orLoop [.string, .array .anything] v f []
      let fl1 ← spliceAnd es1
      let fl2 ← spliceAnd (lbBody x y v f)
      andFinish (fl1 ++ fl2)
  | .exactly j, v, f =>
      if jvalEq v j then some []
      else some [JError.mk "value_not_matched_exactly" f .cnone]
termination_by p _ _ => (msize p, 0, 0)
decreasing_by
  all_goals simp_wf
  all_goals simp [Prod.lex_def, msize, msizeList, msizeObj]
  all_goals try omega

/-- The child loop of AndValidator.Validate (part_000 lines 147-157): every
child is evaluated (no short-circuit) and its violations, with "and"
aggregates spliced open, are appended to the collection. -/
def andLoop : List Validator → JValue → List String → Option (List JError)
  | [], _, _ => some []
  | b :: bs, v, f => do
      let es ← validate b v f
      let fl ← spliceAnd es
      let rest ← andLoop bs v f
      pure (fl ++ rest)
termination_by vs _ _ => (msizeList vs, 1, 0)
decreasing_by
  all_goals simp_wf
  all_goals simp [Prod.lex_def, msize, msizeList, msizeObj]
  all_goals try omega

/-- The child loop of OrValidator.Validate (part_000 lines 212-225): a child
that returns no violations short-circuits the whole disjunction to success;
otherwise its violations, with "or" aggregates spliced open, are appended. -/
def orLoop : List Validator → JValue → List String → List JError →
    Option (List JError)
  | [], _, _, ae => orFinish ae
  | b :: bs, v, f, ae => do
      let es ← validate b v f
      match es with
      | [] => some []
      | e1 :: rest1 => do
          let fl ← spliceOr (e1 :: rest1)
          orLoop bs v f (ae ++ fl)
termination_by vs _ _ _ => (msizeList vs, 1, 0)
decreasing_by
  all_goals simp_wf
  all_goals simp [Prod.lex_def, msize, msizeList, msizeObj]
  all_goals try omega

/-- The schema loop of ObjectValidator.Validate (part_000 lines 301-308): a
schema key missing from the value yields missing_object_key at the parent
path with the key as context; a present key is validated by its
sub-validator at the parent path extended by the key. -/
def objLoop : List (String × Validator) → List (String × JValue) →
    List String → Option (List JError)
  | [], _, _ => some []
  | (k, a) :: rest, o, f => do
      let head ←
        match o.lookup k with
        | none => some [JError.mk "missing_object_key" f (.cstr k)]
        | some u => validate a u (f ++ [k])
      let tail ← objLoop rest o f
      pure (head ++ tail)
termination_by d _ _ => (msizeObj d, 1, 0)
decreasing_by
  all_goals simp_wf
  all_goals simp [Prod.lex_def, msize, msizeList, msizeObj]
  all_goals try omega

/-- The element loop of ArrayValidator.Validate (part_000 lines 364-367):
element i is validated at the parent path extended by the decimal index. -/
def arrLoop : Validator → List JValue → Nat → List String →
    Option (List JError)
  | _, [], _, _ => some []
  | e, u :: us, i, f => do
      let head ← validate e u (f ++ [toString i])
      let tail ← arrLoop e us (i + 1) f
      pure (head ++ tail)
termination_by e us _ _ => (msize e, 1, us.length)
decreasing_by
  all_goals simp_wf
  all_goals simp [Prod.lex_def, msize, msizeList, msizeObj]
  all_goals try omega
end

/-! ### Unfolding lemmas for the validate cases -/

theorem validate_and (vs : List Validator) (v : JValue) (f : List String) :
    validate (.and vs) v f = (andLoop vs v f).bind andFinish := by
  simp [validate]

theorem validate_or (vs : List Validator) (v : JValue) (f : List String) :
    validate (.or vs) v f = orLoop vs v f [] := by
  simp [validate]

theorem validate_object (d : List (String × Validator))
    (o : List (String × JValue)) (f : List String) :
    validate (.object d) (.obj o) f =
      (objLoop d o f).map (fun rest => unexpectedKeys o d f ++ rest) := by
  simp [validate, Option.map_eq_bind]

theorem validate_optional (e : Validator) (v : JValue) (f : List String) :
    validate (.optional e) v f =
      match v with
      | .null => some []
      | _ => validate e v f := by
  cases v <;> simp [validate]

theorem validate_exactly (j v : JValue) (f : List String) :
    validate (.exactly j) v f =
      (if jvalEq v j then some []
       else some [JError.mk "value_not_matched_exactly" f .cnone]) := by
  simp [validate]

/-! ### uniqueErrors facts -/

theorem uniqueLoop_length (es : List JError) : ∀ (uq r : List JError),
    uniqueLoop uq es = some r → uq.length ≤ r.length := by
  induction es with
  | nil =>
      intro uq r h
      simp [uniqueLoop] at h
      simp [h]
  | cons e rest ih =>
      intro uq r h
      rw [uniqueLoop] at h
      cases hm : memErr e uq with
      | none => rw [hm] at h; simp at h
      | some b =>
          rw [hm] at h
          cases b with
          | true => exact ih uq r (by simpa using h)
          | false =>
              have h2 := ih (uq ++ [e]) r (by simpa using h)
              simp at h2
              omega

theorem uniqueErrors_cons_ne_nil (e : JError) (rest ue : List JError)
    (h : uniqueErrors (e :: rest) = some ue) : ue ≠ [] := by
  have h1 : uniqueLoop [e] rest = some ue := by
    simpa [uniqueErrors, uniqueLoop, memErr] using h
  have h2 := uniqueLoop_length rest [e] ue h1
  intro hnil
  rw [hnil] at h2
  simp at h2

/-! ### The claim-side description of the and/or aggregation policy -/

/-- The collapse policy stated by the spec: zero deduplicated violations is
success, exactly one is returned directly without a wrapper, more than one
is wrapped in a single synthetic violation labelled with the given tag whose
context is the deduplicated list and whose path is empty. -/
def collapseWith (tag : String) : List JError → List JError
  | [] => []
  | [e] => [e]
  | ue => [JError.mk tag [] (.cerrs ue)]

/-- Evaluation of every child of a conjunction, in order and without
short-circuiting, splicing open nested "and" aggregates one level, given the
list of all children's results. -/
def collectAnd : List (Option (List JError)) → Option (List JError)
  | [] => some []
  | r :: rs => do
      let es ← r
      let fl ← spliceAnd es
      let rest ← collectAnd rs
      pure (fl ++ rest)

/-- The spec's description of and(v1..vn): collect every child's violations
(flattening nested and-aggregates one level), deduplicate, collapse. -/
def andPipeline (rs : List (Option (List JError))) : Option (List JError) := do
  let ae ← collectAnd rs
  let ue ← uniqueErrors ae
  pure (collapseWith "and" ue)

theorem andFinish_eq_collapse (ae : List JError) :
    andFinish ae = (uniqueErrors ae).map (collapseWith "and") := by
  cases ae with
  | nil => simp [andFinish, uniqueErrors, uniqueLoop, collapseWith]
  | cons e rest =>
      rw [andFinish]
      · cases hu : uniqueErrors (e :: rest) with
        | none => simp [hu]
        | some ue =>
            have hne := uniqueErrors_cons_ne_nil e rest ue hu
            cases ue with
            | nil => exact absurd rfl hne
            | cons u1 urest =>
                cases urest with
                | nil => simp [hu, collapseWith]
                | cons u2 t => simp [hu, collapseWith]
      · simp

theorem andLoop_eq_collect (v : JValue) (f : List String) :
    ∀ vs : List Validator,
      andLoop vs v f = collectAnd (vs.map (fun b => validate b v f)) := by
  intro vs
  induction vs with
  | nil => simp [andLoop, collectAnd]
  | cons b bs ih => simp [andLoop, collectAnd, ih]

theorem orFinish_eq_collapse (ae : List JError) :
    orFinish ae = (uniqueErrors ae).map (collapseWith "or") := by
  cases ae with
  | nil => simp [orFinish, uniqueErrors, uniqueLoop, collapseWith]
  | cons e rest =>
      rw [orFinish]
      · cases hu : uniqueErrors (e :: rest) with
        | none => simp [hu]
        | some ue =>
            have hne := uniqueErrors_cons_ne_nil e rest ue hu
            cases ue with
            | nil => exact absurd rfl hne
            | cons u1 urest =>
                cases urest with
                | nil => simp [hu, collapseWith]
                | cons u2 t => simp [hu, collapseWith]
      · simp

/-! ### The claims -/

/-- Claim C1: for every and-combinator, value and field path, Validate is
exactly the pipeline that evaluates every child (it does not stop at the
first failing child: the result is a function of all children's results, in
order), collects all children's violations with nested and-aggregate
violations spliced open one level, deduplicates the collection, and
collapses it: zero deduplicated violations is success, exactly one is
returned directly without an aggregate wrapper, more than one is wrapped in
a single violation labelled "and" whose context is the deduplicated list. -/
theorem and_validate_is_collect_dedup_collapse
    (vs : List Validator) (v : JValue) (f : List String) :
    validate (.and vs) v f =
      andPipeline (vs.map (fun b => validate b v f)) := by
  rw [validate_and, andLoop_eq_collect, andPipeline]
  cases collectAnd (vs.map fun b => validate b v f) with
  | none => simp
  | some ae => simp [andFinish_eq_collapse, Option.map_eq_bind]

/-- Claim C3: if the first child of Or(p1, p2) succeeds on a value, the
disjunction yields no violations regardless of the second child: or
short-circuits to success on the first fully succeeding child. -/
theorem or_first_success_short_circuits
    (p1 p2 : Validator) (v : JValue) (f : List String)
    (h : validate p1 v f = some []) :
    validate (.or [p1, p2]) v f = some [] := by
  rw [validate_or]
  simp [orLoop, h]

/-- Witness for C3: Or(Anything(), String()) on a number succeeds even
though the second child would fail. -/
theorem or_first_success_short_circuits_witness :
    validate (.or [.anything, .string]) (.num 0) [] = some [] :=
  or_first_success_short_circuits .anything .string (.num 0) []
    (by simp [validate])

/-- Claim C10: whenever the and/or aggregation wraps more than one
deduplicated violation, the synthetic aggregate violation carries the empty
field path — the field path passed to Validate is not used for it — and the
inner violations are stored in its context. -/
theorem aggregate_wrap_has_empty_path
    (ae ue : List JError) (hu : uniqueErrors ae = some ue)
    (h2 : 2 ≤ ue.length) :
    andFinish ae = some [JError.mk "and" [] (.cerrs ue)] ∧
    orFinish ae = some [JError.mk "or" [] (.cerrs ue)] ∧
    (∀ (vs : List Validator) (v : JValue) (f : List String),
      andLoop vs v f = some ae →
      validate (.and vs) v f = some [JError.mk "and" [] (.cerrs ue)]) := by
  have hand : andFinish ae = some [JError.mk "and" [] (.cerrs ue)] := by
    rw [andFinish_eq_collapse, hu]
    cases ue with
    | nil => simp at h2
    | cons a t =>
        cases t with
        | nil => simp at h2
        | cons b t2 => simp [collapseWith]
  refine ⟨hand, ?_, ?_⟩
  · rw [orFinish_eq_collapse, hu]
    cases ue with
    | nil => simp at h2
    | cons a t =>
        cases t with
        | nil => simp at h2
        | cons b t2 => simp [collapseWith]
  · intro vs v f hl
    rw [validate_and, hl]
    simpa using hand

/-- Witness for C10: two distinct type violations collected under a
non-empty parent path are wrapped with the empty path. -/
theorem aggregate_wrap_has_empty_path_witness :
    andFinish [JError.mk "value_must_be_string" ["x"] .cnone,
        JError.mk "value_must_be_number" ["x"] .cnone] =
      some [JError.mk "and" []
        (.cerrs [JError.mk "value_must_be_string" ["x"] .cnone,
          JError.mk "value_must_be_number" ["x"] .cnone])] :=
  (aggregate_wrap_has_empty_path
    [JError.mk "value_must_be_string" ["x"] .cnone,
     JError.mk "value_must_be_number" ["x"] .cnone]
    [JError.mk "value_must_be_string" ["x"] .cnone,
     JError.mk "value_must_be_number" ["x"] .cnone]
    (by rfl) (by simp)).1

/-- Claim C2 settles as a divergence between the spec and this code:
Error.Equals (part_000 lines 20-33) does consult the context. Two
violations with equal reason and path but different comparable contexts are
judged unequal and both survive deduplication, and two violations with
equal reason and path whose contexts hold the same uncomparable Go dynamic
type (here the min/max bounds map of a range validator) make Error.Equals
panic, so And over two identical range validators panics instead of
deduplicating the identical violations. -/
theorem dedup_consults_context :
    errEquals (JError.mk "case_not_defined" ["k"] (.cint 1))
        (JError.mk "case_not_defined" ["k"] (.cint 2)) = some false ∧
    uniqueErrors [JError.mk "case_not_defined" ["k"] (.cint 1),
        JError.mk "case_not_defined" ["k"] (.cint 2)] =
      some [JError.mk "case_not_defined" ["k"] (.cint 1),
        JError.mk "case_not_defined" ["k"] (.cint 2)] ∧
    uniqueErrors
        [JError.mk "value_must_have_length_between" [] (.cbounds 1 2),
         JError.mk "value_must_have_length_between" [] (.cbounds 1 2)] =
      none ∧
    validate (.and [.lengthBetween 1 2, .lengthBetween 1 2])
        (.arr [.null, .null, .null]) [] = none := by
  refine ⟨by rfl, by rfl, by rfl, ?_⟩
  simp [validate, andLoop, orLoop, arrLoop, spliceAnd, spliceOr, asErrs,
    andFinish, orFinish, uniqueErrors, uniqueLoop, memErr, errEquals, ctxEq,
    lbBody, jlen, JError.label, JError.field, JError.context]

/-- Claim C5: Optional on the null/absent value succeeds immediately — the
wrapped validator is irrelevant there — and on any non-null value it
returns exactly the wrapped validator's violations at the same path. -/
theorem optional_null_succeeds_else_delegates
    (p : Validator) (v : JValue) (f : List String) :
    validate (.optional p) .null f = some [] ∧
    (v ≠ .null → validate (.optional p) v f = validate p v f) := by
  constructor
  · simp [validate]
  · intro hv
    cases v <;> simp [validate] at hv ⊢

/-- Witness for C5: Optional(String()) on a number behaves as String()
does, and on null it succeeds. -/
theorem optional_null_succeeds_else_delegates_witness :
    validate (.optional .string) .null [] = some [] ∧
    validate (.optional .string) (.num 3) [] = validate .string (.num 3) [] :=
  ⟨(optional_null_succeeds_else_delegates .string (.num 3) []).1,
   (optional_null_succeeds_else_delegates .string (.num 3) []).2 (by simp)⟩

mutual
/-- The value model's deep-equality predicate coincides with structural
equality of the two value trees. -/
theorem jvalEq_iff (a b : JValue) : jvalEq a b = true ↔ a = b := by
  cases a <;> cases b <;> simp [jvalEq]
  case arr.arr as bs => exact jvalEqArr_iff as bs
  case obj.obj as bs => exact jvalEqObj_iff as bs

/-- Deep equality of element lists is structural equality. -/
theorem jvalEqArr_iff (as bs : List JValue) :
    jvalEqArr as bs = true ↔ as = bs := by
  cases as with
  | nil => cases bs <;> simp [jvalEqArr]
  | cons a as1 =>
      cases bs with
      | nil => simp [jvalEqArr]
      | cons b bs1 =>
          simp [jvalEqArr, Bool.and_eq_true, jvalEq_iff a b,
            jvalEqArr_iff as1 bs1]

/-- Deep equality of field lists is structural equality. -/
theorem jvalEqObj_iff (as bs : List (String × JValue)) :
    jvalEqObj as bs = true ↔ as = bs := by
  cases as with
  | nil => cases bs <;> simp [jvalEqObj]
  | cons p as1 =>
      cases bs with
      | nil => simp [jvalEqObj]
      | cons q bs1 =>
          obtain ⟨k, a⟩ := p
          obtain ⟨l, b⟩ := q
          simp [jvalEqObj, Bool.and_eq_true, jvalEq_iff a b,
            jvalEqObj_iff as1 bs1, Prod.ext_iff, and_assoc]
end

/-- Claim C6: Exactly(j) accepts a value exactly when it is deep-equal to j
under the value model's deep-equality predicate — which is structural
equality of the two value trees, so separately built equal trees are
accepted — and otherwise returns the single violation
value_not_matched_exactly at the given path. -/
theorem exactly_accepts_iff_deep_equal (j v : JValue) (f : List String) :
    (validate (.exactly j) v f = some [] ↔ jvalEq v j = true) ∧
    (jvalEq v j = true ↔ v = j) ∧
    (jvalEq v j = false →
      validate (.exactly j) v f =
        some [JError.mk "value_not_matched_exactly" f .cnone]) := by
  refine ⟨?_, jvalEq_iff v j, ?_⟩
  · rw [validate_exactly]
    cases h : jvalEq v j <;> simp
  · intro h
    rw [validate_exactly, h]
    simp

/-- Witness for C6: two separately written but structurally equal object
trees are accepted, and a structurally different tree is rejected. -/
theorem exactly_accepts_iff_deep_equal_witness :
    validate (.exactly (.obj [("a", .num 1)])) (.obj [("a", .num 1)]) []
      = some [] ∧
    validate (.exactly (.obj [("a", .num 1)])) (.obj [("a", .num 2)]) []
      = some [JError.mk "value_not_matched_exactly" [] .cnone] :=
  ⟨(exactly_accepts_iff_deep_equal (.obj [("a", .num 1)])
      (.obj [("a", .num 1)]) []).1.mpr (by rfl),
   (exactly_accepts_iff_deep_equal (.obj [("a", .num 1)])
      (.obj [("a", .num 2)]) []).2.2 (by rfl)⟩

theorem arrLoop_anything (es : List JValue) (i : Nat) (f : List String) :
    arrLoop .anything es i f = some [] := by
  induction es generalizing i with
  | nil => simp [arrLoop]
  | cons u us ih => simp [arrLoop, validate, ih]

/-- The internal guard Or(String(), Array(Anything())) of
LengthBetweenValidator.Validate succeeds on every string or array. -/
theorem lb_guard_succeeds (v : JValue) (f : List String)
    (h : (∃ s, v = .str s) ∨ (∃ es, v = .arr es)) :
    orLoop [.string, .array .anything] v f [] = some [] := by
  rcases h with ⟨s, rfl⟩ | ⟨es, rfl⟩
  · simp [orLoop, validate]
  · simp [orLoop, validate, spliceOr, asErrs, arrLoop_anything,
      JError.label]

/-- Claim C7: LengthBetween(min, max) with min ≤ max, applied to a string or
array whose length lies outside the inclusive range, reports reason
value_must_have_length when min = max and value_must_have_length_between
when min < max. -/
theorem lengthBetween_reason_selection (x y : Int) (v : JValue)
    (f : List String) (hsv : (∃ s, v = .str s) ∨ (∃ es, v = .arr es))
    (hout : jlen v < x ∨ jlen v > y) :
    validate (.lengthBetween x y) v f =
      some [if x = y then JError.mk "value_must_have_length" f (.cint x)
            else JError.mk "value_must_have_length_between" f (.cbounds x y)]
    := by
  rw [validate]
  rw [lb_guard_succeeds v f hsv]
  simp only [lbBody]
  rw [if_pos hout]
  by_cases hxy : x = y
  · rw [if_pos hxy]
    simp [hxy, spliceAnd, asErrs, andFinish, uniqueErrors, uniqueLoop,
      memErr, JError.label]
  · rw [if_neg hxy]
    simp [hxy, spliceAnd, asErrs, andFinish, uniqueErrors, uniqueLoop,
      memErr, JError.label]

/-- The per-entry contribution of the schema loop of
ObjectValidator.Validate: missing_object_key for an absent key, otherwise
the sub-validator's result at the extended path. -/
def objHead (o : List (String × JValue)) (f : List String) :
    String × Validator → Option (List JError)
  | (k, a) =>
      match o.lookup k with
      | none => some [JError.mk "missing_object_key" f (.cstr k)]
      | some u => validate a u (f ++ [k])

theorem objLoop_cons (p : String × Validator) (d : List (String × Validator))
    (o : List (String × JValue)) (f : List String) :
    objLoop (p :: d) o f = (do
      let hd ← objHead o f p
      let tl ← objLoop d o f
      pure (hd ++ tl)) := by
  obtain ⟨k, a⟩ := p
  rw [objLoop]
  cases hlk : o.lookup k <;> simp [objHead, hlk]

theorem objLoop_missing_mem (o : List (String × JValue)) (f : List String) :
    ∀ (d : List (String × Validator)) (rest : List JError) (k : String)
      (a : Validator), (k, a) ∈ d → o.lookup k = none →
      objLoop d o f = some rest →
      JError.mk "missing_object_key" f (.cstr k) ∈ rest := by
  intro d
  induction d with
  | nil => intro rest k a hmem; cases hmem
  | cons p d1 ih =>
      intro rest k a hmem hlk h
      obtain ⟨k1, a1⟩ := p
      rw [objLoop_cons] at h
      simp only [Option.bind_eq_bind, Option.bind_eq_some, Option.pure_def,
        Option.some.injEq] at h
      obtain ⟨hd, hhd, tl, htl, hr⟩ := h
      subst hr
      rcases List.mem_cons.mp hmem with hhead | htail
      · injection hhead with h1 h2
        subst h1
        subst h2
        have hh : objHead o f (k, a) = some [JError.mk "missing_object_key" f
            (.cstr k)] := by
          simp [objHead, hlk]
        rw [hh] at hhd
        exact List.mem_append_left _ (by simp [← Option.some.inj hhd])
      · exact List.mem_append_right _ (ih tl k a htail hlk htl)

theorem objLoop_present_sub (o : List (String × JValue)) (f : List String) :
    ∀ (d : List (String × Validator)) (rest : List JError) (k : String)
      (a : Validator) (u : JValue), (k, a) ∈ d → o.lookup k = some u →
      objLoop d o f = some rest →
      ∃ ces, validate a u (f ++ [k]) = some ces ∧ ∀ e ∈ ces, e ∈ rest := by
  intro d
  induction d with
  | nil => intro rest k a u hmem; cases hmem
  | cons p d1 ih =>
      intro rest k a u hmem hlk h
      obtain ⟨k1, a1⟩ := p
      rw [objLoop_cons] at h
      simp only [Option.bind_eq_bind, Option.bind_eq_some, Option.pure_def,
        Option.some.injEq] at h
      obtain ⟨hd, hhd, tl, htl, hr⟩ := h
      subst hr
      rcases List.mem_cons.mp hmem with hhead | htail
      · injection hhead with h1 h2
        subst h1
        subst h2
        have hh : objHead o f (k, a) = validate a u (f ++ [k]) := by
          simp [objHead, hlk]
        rw [hh] at hhd
        exact ⟨hd, hhd, fun e he => List.mem_append_left _ he⟩
      · obtain ⟨ces, hces, hsub⟩ := ih tl k a u htail hlk htl
        exact ⟨ces, hces, fun e he => List.mem_append_right _ (hsub e he)⟩

theorem unexpectedKeys_mem (d : List (String × Validator)) (f : List String) :
    ∀ (o : List (String × JValue)) (k : String) (u : JValue),
      (k, u) ∈ o → d.lookup k = none →
      JError.mk "unexpected_object_key" f (.cstr k) ∈ unexpectedKeys o d f := by
  intro o
  induction o with
  | nil => intro k u hmem; cases hmem
  | cons p o1 ih =>
      intro k u hmem hlk
      obtain ⟨k1, u1⟩ := p
      rcases List.mem_cons.mp hmem with hhead | htail
      · injection hhead with h1 h2
        subst h1
        subst h2
        rw [unexpectedKeys, hlk]
        simp
      · rw [unexpectedKeys]
        exact List.mem_append_right _ (ih k u htail hlk)

/-- Claim C4: Object(schema) on a mapping reports missing_object_key for
every schema key absent from the value, unexpected_object_key for every
value key absent from the schema, and validates every key present in both
with its sub-validator at path = parent path + key segment, keeping all of
that sub-validator's violations. -/
theorem object_reports_missing_unexpected_and_recurses
    (d : List (String × Validator)) (o : List (String × JValue))
    (f : List String) (r : List JError)
    (hr : validate (.object d) (.obj o) f = some r) :
    (∀ k a, (k, a) ∈ d → o.lookup k = none →
      JError.mk "missing_object_key" f (.cstr k) ∈ r) ∧
    (∀ k u, (k, u) ∈ o → d.lookup k = none →
      JError.mk "unexpected_object_key" f (.cstr k) ∈ r) ∧
    (∀ k a u, (k, a) ∈ d → o.lookup k = some u →
      ∃ ces, validate a u (f ++ [k]) = some ces ∧ ∀ e ∈ ces, e ∈ r) := by
  rw [validate_object] at hr
  cases hl : objLoop d o f with
  | none => rw [hl] at hr; simp at hr
  | some rest =>
      rw [hl] at hr
      simp at hr
      subst hr
      refine ⟨?_, ?_, ?_⟩
      · intro k a hmem hlk
        exact List.mem_append_right _
          (objLoop_missing_mem o f d rest k a hmem hlk hl)
      · intro k u hmem hlk
        exact List.mem_append_left _
          (unexpectedKeys_mem d f o k u hmem hlk)
      · intro k a u hmem hlk
        obtain ⟨ces, hces, hsub⟩ :=
          objLoop_present_sub o f d rest k a u hmem hlk hl
        exact ⟨ces, hces, fun e he => List.mem_append_right _ (hsub e he)⟩

/-- Witness for C4 on schema (a: string, c: string) and value
(a: 1, b: true): key c is reported missing, key b unexpected, and key a is
validated by String() at path a. -/
theorem object_reports_missing_unexpected_and_recurses_witness :
    JError.mk "missing_object_key" [] (.cstr "c") ∈
      [JError.mk "unexpected_object_key" [] (.cstr "b"),
       JError.mk "value_must_be_string" ["a"] .cnone,
       JError.mk "missing_object_key" [] (.cstr "c")] ∧
    JError.mk "unexpected_object_key" [] (.cstr "b") ∈
      [JError.mk "unexpected_object_key" [] (.cstr "b"),
       JError.mk "value_must_be_string" ["a"] .cnone,
       JError.mk "missing_object_key" [] (.cstr "c")] := by
  have h := object_reports_missing_unexpected_and_recurses
    [("a", .string), ("c", .string)] [("a", .num 1), ("b", .bool true)] []
    [JError.mk "unexpected_object_key" [] (.cstr "b"),
     JError.mk "value_must_be_string" ["a"] .cnone,
     JError.mk "missing_object_key" [] (.cstr "c")]
    (by simp [validate, objLoop, unexpectedKeys, List.lookup])
  exact ⟨h.1 "c" .string (by simp) (by rfl),
    h.2.1 "b" (.bool true) (by simp) (by rfl)⟩

/-- Witness for C7: a three-element array misses both Length(2) (reported as
value_must_have_length) and LengthBetween(0, 2) (reported as
value_must_have_length_between). -/
theorem lengthBetween_reason_selection_witness :
    validate (.lengthBetween 2 2) (.arr [.null, .null, .null]) [] =
      some [JError.mk "value_must_have_length" [] (.cint 2)] ∧
    validate (.lengthBetween 0 2) (.arr [.null, .null, .null]) [] =
      some [JError.mk "value_must_have_length_between" [] (.cbounds 0 2)] := by
  constructor
  · have h := lengthBetween_reason_selection 2 2 (.arr [.null, .null, .null])
      [] (Or.inr ⟨_, rfl⟩) (by simp [jlen])
    simpa using h
  · have h := lengthBetween_reason_selection 0 2 (.arr [.null, .null, .null])
      [] (Or.inr ⟨_, rfl⟩) (by simp [jlen])
    simpa using h

/-! ### Schema iteration order (claim C8)

ObjectValidator's schema is a Go map, and its Validate ranges over that map
(`for k, a := range d`, part_000 line 301). Go's map iteration order is
unspecified and randomized per range statement, so two runs on the same
schema map are modelled by two association lists that are permutations of
each other. -/

/-- Counterexample for C8: the same schema map iterated in its two possible
orders yields the two key violations in different sequence orders, so two
runs of validate need not return the identical ordered violation list. -/
theorem validate_depends_on_schema_iteration_order :
    ([("a", Validator.string), ("b", Validator.string)]).Perm
      [("b", Validator.string), ("a", Validator.string)] ∧
    validate (.object [("a", .string), ("b", .string)])
        (.obj [("a", .num 1), ("b", .num 2)]) [] ≠
      validate (.object [("b", .string), ("a", .string)])
        (.obj [("a", .num 1), ("b", .num 2)]) [] := by
  constructor
  · exact List.Perm.swap _ _ _
  · simp [validate, objLoop, unexpectedKeys, List.lookup]

theorem lookup_eq_none_iff (l : List (String × Validator)) (k : String) :
    l.lookup k = none ↔ ∀ a, (k, a) ∉ l := by
  induction l with
  | nil => simp [List.lookup]
  | cons p l1 ih =>
      obtain ⟨k1, a1⟩ := p
      by_cases hk : k = k1
      · subst hk
        simp only [List.lookup, beq_self_eq_true, if_true]
        simp only [false_iff, List.mem_cons, not_or, reduceCtorEq,
          Option.some_ne_none]
        intro hall
        exact ((hall a1).1 rfl).elim
      · have hb : (k == k1) = false := beq_eq_false_iff_ne.mpr hk
        simp only [List.lookup, hb, if_false]
        rw [ih]
        constructor
        · intro hall a hmem
          rcases List.mem_cons.mp hmem with hhead | htail
          · exact hk (congrArg Prod.fst hhead)
          · exact hall a htail
        · intro hall a hmem
          exact hall a (List.mem_cons_of_mem _ hmem)

theorem lookup_none_of_perm {d df : List (String × Validator)}
    (hperm : d.Perm df) (k : String) :
    d.lookup k = none ↔ df.lookup k = none := by
  rw [lookup_eq_none_iff, lookup_eq_none_iff]
  exact forall_congr' fun a => not_congr hperm.mem_iff

theorem unexpectedKeys_perm (o : List (String × JValue)) (f : List String)
    {d df : List (String × Validator)} (hperm : d.Perm df) :
    unexpectedKeys o d f = unexpectedKeys o df f := by
  induction o with
  | nil => rfl
  | cons p o1 ih =>
      obtain ⟨k, u⟩ := p
      rw [unexpectedKeys, unexpectedKeys, ih]
      congr 1
      have hiff := lookup_none_of_perm hperm k
      cases h1 : d.lookup k <;> cases h2 : df.lookup k <;>
        simp [h1, h2] at hiff ⊢

theorem objLoop_perm_exists (o : List (String × JValue)) (f : List String) :
    ∀ {d df : List (String × Validator)}, d.Perm df →
      ∀ r, objLoop d o f = some r →
        ∃ rf, objLoop df o f = some rf ∧ r.Perm rf := by
  intro d df hperm
  induction hperm with
  | nil => exact fun r h => ⟨r, h, List.Perm.refl r⟩
  | cons x p ih =>
      intro r h
      rw [objLoop_cons] at h
      simp only [Option.bind_eq_bind, Option.bind_eq_some, Option.pure_def,
        Option.some.injEq] at h
      obtain ⟨hd, hhd, tl, htl, hr⟩ := h
      subst hr
      obtain ⟨tlf, htlf, hp⟩ := ih tl htl
      refine ⟨hd ++ tlf, ?_, List.Perm.append_left hd hp⟩
      rw [objLoop_cons, hhd, htlf]
      simp
  | swap x y l =>
      intro r h
      rw [objLoop_cons] at h
      simp only [Option.bind_eq_bind, Option.bind_eq_some, Option.pure_def,
        Option.some.injEq] at h
      obtain ⟨hdy, hhdy, tl1, htl1, hr⟩ := h
      rw [objLoop_cons] at htl1
      simp only [Option.bind_eq_bind, Option.bind_eq_some, Option.pure_def,
        Option.some.injEq] at htl1
      obtain ⟨hdx, hhdx, tl, htl, hr1⟩ := htl1
      subst hr1
      subst hr
      refine ⟨hdx ++ (hdy ++ tl), ?_, ?_⟩
      · rw [objLoop_cons, hhdx, objLoop_cons, hhdy, htl]
        simp
      · have hp := List.Perm.append_right tl
          (show List.Perm (hdy ++ hdx) (hdx ++ hdy) from List.perm_append_comm)
        simpa [List.append_assoc] using hp
  | trans p q ih1 ih2 =>
      intro r h
      obtain ⟨rm, hm, p1⟩ := ih1 r h
      obtain ⟨rf, hf, p2⟩ := ih2 rm hm
      exact ⟨rf, hf, p1.trans p2⟩

/-- Amendment of C8 that the counterexample forces: validate is a pure
function of the validator, the value, the path and the schema iteration
order, and for object validators the violations of two runs whose schema
maps iterate in different orders are the same up to order (the same
multiset), though not necessarily in the same sequence order. -/
theorem validate_object_same_violations_up_to_order
    {d df : List (String × Validator)} (hperm : d.Perm df)
    (v : JValue) (f : List String) (r rf : List JError)
    (h : validate (.object d) v f = some r)
    (hf : validate (.object df) v f = some rf) : r.Perm rf := by
  cases v with
  | obj o =>
      rw [validate_object] at h hf
      cases hl : objLoop d o f with
      | none => rw [hl] at h; simp at h
      | some rest =>
          rw [hl] at h
          simp at h
          obtain ⟨restf, hlf, hp⟩ := objLoop_perm_exists o f hperm rest hl
          rw [hlf] at hf
          simp at hf
          subst h
          subst hf
          rw [unexpectedKeys_perm o f hperm]
          exact List.Perm.append_left _ hp
  | null => simp [validate] at h hf; subst h; subst hf; exact .refl _
  | str s => simp [validate] at h hf; subst h; subst hf; exact .refl _
  | num n => simp [validate] at h hf; subst h; subst hf; exact .refl _
  | bool b => simp [validate] at h hf; subst h; subst hf; exact .refl _
  | arr es => simp [validate] at h hf; subst h; subst hf; exact .refl _

/-- Witness for the amended C8: the two iteration orders of the same
two-key schema yield the two violations as permutations of each other. -/
theorem validate_object_same_violations_up_to_order_witness :
    ([JError.mk "value_must_be_string" ["a"] .cnone,
      JError.mk "value_must_be_string" ["b"] .cnone]).Perm
      [JError.mk "value_must_be_string" ["b"] .cnone,
       JError.mk "value_must_be_string" ["a"] .cnone] :=
  validate_object_same_violations_up_to_order
    (show ([("a", Validator.string), ("b", Validator.string)]).Perm
        [("b", Validator.string), ("a", Validator.string)] from
      List.Perm.swap _ _ _)
    (.obj [("a", .num 1), ("b", .num 2)]) [] _ _
    (by simp [validate, objLoop, unexpectedKeys, List.lookup])
    (by simp [validate, objLoop, unexpectedKeys, List.lookup])

/-! ### Description of recursive validators (claim C9)

RecursiveValidator.MarshalJSON (src/jval.go lines 492-510) walks the cyclic
validator graph with a per-node visiting marker `l`: on first entry it draws
a fresh non-zero identifier, emits `["recursion",[id, body]]` while the
marker is set (so a re-entry during the body walk emits `["recurse",[id]]`),
then clears the marker. A recursive validator built by two-phase binding is
a binder whose body refers back to it, so the graph is modelled as a
mu-term: `recNode body` with `selfRef 0` the reference back to the nearest
enclosing recursive node. The environment of the walk carries the generated
identifiers of the currently-visited recursive nodes (the set markers), and
the counter generates fresh non-zero identifiers in place of rand.Int. -/

/-- Validator shapes for the description mechanism: plain tagged leaves,
combinators with child lists, single-child wrappers, recursive binders, and
self-references. -/
inductive DValidator where
  | prim (tag : String)
  | comb (tag : String) (children : List DValidator)
  | wrap (tag : String) (child : DValidator)
  | recNode (body : DValidator)
  | selfRef (k : Nat)

/-- The serializable description tree: a MarshalJSON output
`["tag",[...]]` is a tagged node and a generated recursion identifier is a
number leaf. -/
inductive Desc where
  | node (tag : String) (children : List Desc)
  | ident (n : Nat)

mutual
/-- The description walk of the MarshalJSON implementations of src/jval.go,
with RecursiveValidator's visiting markers carried as the environment of
generated identifiers and fresh identifiers drawn from a counter. -/
def describeD : DValidator → List Nat → Nat → Desc × Nat
  | .prim t, _, c => (.node t [], c)
  | .comb t cs, env, c =>
      let r := describeDList cs env c
      (.node t r.1, r.2)
  | .wrap t e, env, c =>
      let r := describeD e env c
      (.node t [r.1], r.2)
  | .recNode body, env, c =>
      let r := describeD body ((c + 1) :: env) (c + 1)
      (.node "recursion" [.ident (c + 1), r.1], r.2)
  | .selfRef k, env, c => (.node "recurse" [.ident (env.getD k 0)], c)

/-- The child loop of the combinator MarshalJSON implementations. -/
def describeDList : List DValidator → List Nat → Nat → List Desc × Nat
  | [], _, c => ([], c)
  | v :: vs, env, c =>
      let r := describeD v env c
      let rs := describeDList vs env r.2
      (r.1 :: rs.1, rs.2)
end

mutual
/-- Number of description nodes with the given tag. -/
def countTag (t : String) : Desc → Nat
  | .node tag cs => (if tag = t then 1 else 0) + countTagList t cs
  | .ident _ => 0

/-- Number of description nodes with the given tag in a child list. -/
def countTagList (t : String) : List Desc → Nat
  | [] => 0
  | d :: ds => countTag t d + countTagList t ds
end

mutual
/-- Every "recurse" node of the description carries exactly the identifier
l as its only payload. -/
def recurseCarries (l : Nat) : Desc → Bool
  | .node tag cs =>
      if tag = "recurse" then
        match cs with
        | [.ident m] => m == l
        | _ => false
      else recurseCarriesList l cs
  | .ident _ => true

/-- recurseCarries over a child list. -/
def recurseCarriesList (l : Nat) : List Desc → Bool
  | [] => true
  | d :: ds => recurseCarries l d && recurseCarriesList l ds
end

mutual
/-- Number of self-references in a recursive validator's body. -/
def selfCount : DValidator → Nat
  | .prim _ => 0
  | .comb _ cs => selfCountList cs
  | .wrap _ e => selfCount e
  | .recNode body => selfCount body
  | .selfRef _ => 1

/-- selfCount over a child list. -/
def selfCountList : List DValidator → Nat
  | [] => 0
  | v :: vs => selfCount v + selfCountList vs
end

mutual
/-- A well-formed single-cycle body: built from the ordinary validator
vocabulary (whose node tags are never "recursion" or "recurse"), with no
nested recursive node, and every self-reference pointing at the one
enclosing recursive node. -/
def wfBody : DValidator → Bool
  | .prim t => t != "recursion" && t != "recurse"
  | .comb t cs => t != "recursion" && (t != "recurse" && wfBodyList cs)
  | .wrap t e => t != "recursion" && (t != "recurse" && wfBody e)
  | .recNode _ => false
  | .selfRef k => k == 0

/-- wfBody over a child list. -/
def wfBodyList : List DValidator → Bool
  | [] => true
  | v :: vs => wfBody v && wfBodyList vs
end

mutual
theorem describeBody_spec (l : Nat) : ∀ (body : DValidator) (c : Nat),
    wfBody body = true →
    (describeD body [l] c).2 = c ∧
    countTag "recursion" (describeD body [l] c).1 = 0 ∧
    countTag "recurse" (describeD body [l] c).1 = selfCount body ∧
    recurseCarries l (describeD body [l] c).1 = true
  | .prim t, c, hwf => by
      simp [wfBody] at hwf
      simp [describeD, countTag, countTagList, selfCount, recurseCarries,
        recurseCarriesList, hwf.1, hwf.2]
  | .comb t cs, c, hwf => by
      simp [wfBody] at hwf
      obtain ⟨ht1, ht2, hcs⟩ := hwf
      have ih := describeBodyList_spec l cs c hcs
      simp [describeD, countTag, selfCount, recurseCarries, ht1, ht2,
        ih.1, ih.2.1, ih.2.2.1, ih.2.2.2]
  | .wrap t e, c, hwf => by
      simp [wfBody] at hwf
      obtain ⟨ht1, ht2, he⟩ := hwf
      have ih := describeBody_spec l e c he
      simp [describeD, countTag, countTagList, selfCount, recurseCarries,
        recurseCarriesList, ht1, ht2, ih.1, ih.2.1, ih.2.2.1, ih.2.2.2]
  | .recNode body, c, hwf => by simp [wfBody] at hwf
  | .selfRef k, c, hwf => by
      simp [wfBody] at hwf
      subst hwf
      simp [describeD, countTag, countTagList, selfCount, recurseCarries]

theorem describeBodyList_spec (l : Nat) : ∀ (cs : List DValidator) (c : Nat),
    wfBodyList cs = true →
    (describeDList cs [l] c).2 = c ∧
    countTagList "recursion" (describeDList cs [l] c).1 = 0 ∧
    countTagList "recurse" (describeDList cs [l] c).1 = selfCountList cs ∧
    recurseCarriesList l (describeDList cs [l] c).1 = true
  | [], c, _ => by
      simp [describeDList, countTagList, selfCountList, recurseCarriesList]
  | v :: vs, c, hwf => by
      simp [wfBodyList] at hwf
      have ih1 := describeBody_spec l v c hwf.1
      have ih2 := describeBodyList_spec l vs c hwf.2
      simp [describeDList, countTagList, selfCountList, recurseCarriesList,
        ih1.1, ih1.2.1, ih1.2.2.1, ih1.2.2.2, ih2.1, ih2.2.1, ih2.2.2.1,
        ih2.2.2.2]
end

/-- Claim C9: describing a recursive validator whose bound body refers back
to itself terminates — describeD is a total structurally-recursive walk,
mirroring how the visiting marker of RecursiveValidator.MarshalJSON stops
the descent at re-entry — and the output contains exactly one definition
node (tag "recursion", carrying a generated identifier and the body's
description) and one reference node per self-reference traversed — at least
one — each a "recurse" node carrying only that identifier. -/
theorem describe_recursive_one_definition
    (body : DValidator) (c : Nat) (hwf : wfBody body = true)
    (hself : 1 ≤ selfCount body) :
    countTag "recursion" (describeD (.recNode body) [] c).1 = 1 ∧
    countTag "recurse" (describeD (.recNode body) [] c).1 = selfCount body ∧
    1 ≤ countTag "recurse" (describeD (.recNode body) [] c).1 ∧
    recurseCarries (c + 1) (describeD (.recNode body) [] c).1 = true ∧
    (describeD (.recNode body) [] c).1 =
      .node "recursion"
        [.ident (c + 1), (describeD body [c + 1] (c + 1)).1] := by
  have h := describeBody_spec (c + 1) body (c + 1) hwf
  refine ⟨?_, ?_, ?_, ?_, ?_⟩
  · simp [describeD, countTag, countTagList, h.2.1]
  · simp [describeD, countTag, countTagList, h.2.2.1]
  · simp [describeD, countTag, countTagList, h.2.2.1]
    omega
  · simp [describeD, recurseCarries, recurseCarriesList, h.2.2.2]
  · simp [describeD]

/-- Witness for C9: the recursive validator for a string-or-list-of-self
schema describes to exactly one definition node and one reference node. -/
theorem describe_recursive_one_definition_witness :
    countTag "recursion"
      (describeD (.recNode (.comb "or"
        [.prim "string", .wrap "array" (.selfRef 0)])) [] 0).1 = 1 ∧
    countTag "recurse"
      (describeD (.recNode (.comb "or"
        [.prim "string", .wrap "array" (.selfRef 0)])) [] 0).1 = 1 := by
  have h := describe_recursive_one_definition
    (.comb "or" [.prim "string", .wrap "array" (.selfRef 0)]) 0
    (by simp [wfBody, wfBodyList])
    (by simp [selfCount, selfCountList])
  exact ⟨h.1, by rw [h.2.1]; simp [selfCount, selfCountList]⟩

end Jval
